import Mathlib

/-!
Verification of the Maltrail configuration loader and feed adapters.

This file gives a shallow embedding, in Lean 4, of the parts of the
repository exercised by the specification claims:

* `core/settings.py` — `read_config` (configuration grammar, value
  coercion, mandatory-option check, capture-buffer sizing) together with
  the module constants `BLOCK_LENGTH` and the initial `BUFFER_LENGTH`;
* `trails/custom/__init__.py` — the `fetch` line normalizer of the
  custom (local) trail adapter;
* `trails/feeds/badips.py` — the `fetch` of the badips remote adapter.

Python byte-strings are embedded as `List Char` (the sources are ASCII).
External effects are passed explicitly: the configuration file is given
as its content plus an existence flag, the physical-memory probe
`_get_total_physmem` as an `Option Nat` (`none` models `None`), the
module globals and the process environment as partial maps
`List Char → Option (List Char)` (the substitution code only ever
substitutes string-valued entries; a non-string global would raise
`TypeError` in `value.replace`, a path no claim exercises), and the HTTP
response body of `retrieve_content` as an explicit argument.  The model
fixes `subprocess.mswindows = False` (POSIX), so the Windows-only
path-separator rewrite in `read_config` is omitted.
-/

deriving instance DecidableEq for Except

namespace Maltrail

/-- Python byte-strings, embedded as lists of characters. -/
abbrev Str := List Char

/-! ### Python string primitives -/

/-- Characters stripped by Python's no-argument `str.strip()`. -/
def pyIsSpace (c : Char) : Bool :=
  c = ' ' || c = '\t' || c = '\n' || c = '\r' || c = '\x0b' || c = '\x0c'

/-- Python `s.strip()`: remove whitespace from both ends. -/
def pyStrip (l : Str) : Str :=
  ((l.dropWhile pyIsSpace).reverse.dropWhile pyIsSpace).reverse

/-- Python `s.strip(cs)`: remove any of the characters `cs` from both ends. -/
def pyStripChars (cs : List Char) (l : Str) : Str :=
  ((l.dropWhile (cs.contains ·)).reverse.dropWhile (cs.contains ·)).reverse

/-- Python `s.rstrip(c)` for a single character `c`. -/
def rstripChar (c : Char) (l : Str) : Str :=
  (l.reverse.dropWhile (· = c)).reverse

/-- Python `s.upper()` (ASCII). -/
def upperStr (l : Str) : Str := l.map Char.toUpper

/-- Python `s.lower()` (ASCII). -/
def lowerStr (l : Str) : Str := l.map Char.toLower

/-- Python `s.isdigit()` on a byte-string: non-empty and all ASCII digits. -/
def isDigitStr (l : Str) : Bool := !l.isEmpty && l.all Char.isDigit

/-- Python `int(s)` for an all-digit string. -/
def toNatDigits (l : Str) : Nat :=
  l.foldl (fun a c => 10 * a + (c.toNat - '0'.toNat)) 0

/-- Python `s.split(sep)` for a one-character separator. -/
def splitOnChar (sep : Char) : Str → List Str
  | [] => [[]]
  | c :: r =>
    if c = sep then [] :: splitOnChar sep r
    else
      match splitOnChar sep r with
      | [] => [[c]]
      | s :: ss => (c :: s) :: ss

/-- Python `needle in haystack` (substring containment). -/
def containsSub (needle : Str) : Str → Bool
  | [] => needle.isEmpty
  | c :: t => needle.isPrefixOf (c :: t) || containsSub needle t

/-- The suffix of `s` after the first occurrence of `needle`
(the `group(1)` of `re.search(r"://(.*)", s)` when `needle = "://"`). -/
def afterFirst (needle : Str) : Str → Str
  | [] => []
  | c :: t =>
    if needle.isPrefixOf (c :: t) then List.drop needle.length (c :: t)
    else afterFirst needle t

/-- Worker for Python `s.replace(needle, repl)` with needle `n0 :: nrest`:
the first argument counts characters still to be skipped (the tail of a
needle occurrence just replaced); structural in the string so that it
evaluates in the kernel. -/
def replaceGo (n0 : Char) (nrest repl : Str) : Nat → Str → Str
  | _ + 1, [] => []
  | k + 1, _ :: t => replaceGo n0 nrest repl k t
  | 0, [] => []
  | 0, c :: t =>
    if (n0 :: nrest).isPrefixOf (c :: t) then
      repl ++ replaceGo n0 nrest repl nrest.length t
    else
      c :: replaceGo n0 nrest repl 0 t

/-- Python `s.replace(needle, repl)` for a non-empty needle `n0 :: nrest`:
replace every occurrence, left to right, without rescanning replacements. -/
def replaceAllNE (n0 : Char) (nrest repl : Str) (s : Str) : Str :=
  replaceGo n0 nrest repl 0 s

/-- Python `s.replace(needle, repl)`; the sources only ever call it with a
non-empty needle (a `$`-token), so the empty-needle case is the identity. -/
def replaceAll (needle repl s : Str) : Str :=
  match needle with
  | [] => s
  | n0 :: nrest => replaceAllNE n0 nrest repl s

/-! ### `$UPPER_NAME` variable substitution (`read_config`, value coercion) -/

/-- A character matched by the group of `r"\$([A-Z0-9_]+)"`. -/
def isTokChar (c : Char) : Bool :=
  ('A' ≤ c && c ≤ 'Z') || ('0' ≤ c && c ≤ '9') || c = '_'

/-- Worker for `scanTokens`; the first argument counts characters of the
token run just emitted that remain to be skipped. -/
def scanGo : Nat → Str → List Str
  | _ + 1, [] => []
  | k + 1, _ :: t => scanGo k t
  | 0, [] => []
  | 0, c :: rest =>
    if c = '$' then
      let run := rest.takeWhile isTokChar
      if run.isEmpty then scanGo 0 rest
      else (c :: run) :: scanGo run.length rest
    else scanGo 0 rest

/-- The matches of `re.finditer(r"\$([A-Z0-9_]+)", s)`, in order, each
including its leading `$` (Python's `match.group(0)`). -/
def scanTokens (s : Str) : List Str := scanGo 0 s

/-- The replacement the loop body of `read_config` chooses for one matched
token `$NAME`: the same-named module global if present, else the
environment variable `NAME`, else the token itself
(`os.environ.get(name, match.group(0))`). -/
def lookupTok (g e : Str → Option Str) (tok : Str) : Str :=
  match tok with
  | [] => tok
  | _ :: nm =>
    match g nm with
    | some v => v
    | none =>
      match e nm with
      | some v => v
      | none => tok

/-- The substitution loop of `read_config`: fold Python `str.replace` over
the matches found in the *original* value (`re.finditer` iterates over the
string captured at loop entry, while `value` is reassigned inside). -/
def codeSubst (f : Str → Str) (s : Str) : Str :=
  (scanTokens s).foldl (fun v t => replaceAll t (f t) v) s

/-- Worker for `specSimulSubst`, skipping a just-replaced token run. -/
def specSimulGo (f : Str → Str) : Nat → Str → Str
  | _ + 1, [] => []
  | k + 1, _ :: t => specSimulGo f k t
  | 0, [] => []
  | 0, c :: rest =>
    if c = '$' then
      let run := rest.takeWhile isTokChar
      if run.isEmpty then c :: specSimulGo f 0 rest
      else f (c :: run) ++ specSimulGo f run.length rest
    else c :: specSimulGo f 0 rest

/-- Modelled from the spec: simultaneous substitution — "every
`$UPPER_NAME` token is replaced" in place, each occurrence independently.
This is the reading of the claim, to be compared against `codeSubst`. -/
def specSimulSubst (f : Str → Str) (s : Str) : Str := specSimulGo f 0 s

/-! ### Evaluation lemmas for the substitution workers -/

theorem replaceGo_skip (n0 : Char) (nr r : Str) (s : Str) :
    ∀ k : Nat, replaceGo n0 nr r k s = replaceGo n0 nr r 0 (s.drop k) := by
  induction s with
  | nil => intro k; cases k <;> simp [replaceGo]
  | cons c t ih =>
    intro k
    cases k with
    | zero => simp
    | succ k => simp [replaceGo, ih k]

theorem replaceAllNE_nil (n0 : Char) (nr r : Str) :
    replaceAllNE n0 nr r [] = [] := rfl

theorem replaceAllNE_cons (n0 : Char) (nr r : Str) (c : Char) (t : Str) :
    replaceAllNE n0 nr r (c :: t) =
      if (n0 :: nr).isPrefixOf (c :: t) then
        r ++ replaceAllNE n0 nr r (t.drop nr.length)
      else
        c :: replaceAllNE n0 nr r t := by
  simp only [replaceAllNE, replaceGo]
  rw [replaceGo_skip]

theorem scanGo_skip (s : Str) :
    ∀ k : Nat, scanGo k s = scanGo 0 (s.drop k) := by
  induction s with
  | nil => intro k; cases k <;> simp [scanGo]
  | cons c t ih =>
    intro k
    cases k with
    | zero => simp
    | succ k => simp [scanGo, ih k]

theorem scanTokens_nil : scanTokens [] = [] := rfl

theorem scanTokens_cons (c : Char) (rest : Str) :
    scanTokens (c :: rest) =
      if c = '$' then
        if (rest.takeWhile isTokChar).isEmpty then scanTokens rest
        else (c :: rest.takeWhile isTokChar) ::
          scanTokens (rest.drop (rest.takeWhile isTokChar).length)
      else scanTokens rest := by
  simp only [scanTokens, scanGo]
  rw [scanGo_skip rest (rest.takeWhile isTokChar).length]

theorem specSimulGo_skip (f : Str → Str) (s : Str) :
    ∀ k : Nat, specSimulGo f k s = specSimulGo f 0 (s.drop k) := by
  induction s with
  | nil => intro k; cases k <;> simp [specSimulGo]
  | cons c t ih =>
    intro k
    cases k with
    | zero => simp
    | succ k => simp [specSimulGo, ih k]

theorem specSimulSubst_nil (f : Str → Str) : specSimulSubst f [] = [] := rfl

theorem specSimulSubst_cons (f : Str → Str) (c : Char) (rest : Str) :
    specSimulSubst f (c :: rest) =
      if c = '$' then
        if (rest.takeWhile isTokChar).isEmpty then c :: specSimulSubst f rest
        else f (c :: rest.takeWhile isTokChar) ++
          specSimulSubst f (rest.drop (rest.takeWhile isTokChar).length)
      else c :: specSimulSubst f rest := by
  simp only [specSimulSubst, specSimulGo]
  rw [specSimulGo_skip f rest (rest.takeWhile isTokChar).length]

/-! ### Substitution on values with a single token occurrence -/

/-- The first character of `suf` cannot extend a token run
(`suf` empty or starting with a non-token character). -/
def headNotTok : Str → Bool
  | [] => true
  | c :: _ => !isTokChar c

theorem isPrefixOf_self_append (l b : Str) : l.isPrefixOf (l ++ b) = true := by
  induction l with
  | nil => simp [List.isPrefixOf]
  | cons c t ih => simp [List.isPrefixOf, ih]

theorem isPrefixOf_cons_ne (x : Char) (xs : Str) (c : Char) (t : Str)
    (h : x ≠ c) : (x :: xs).isPrefixOf (c :: t) = false := by
  simp [List.isPrefixOf, h]

theorem replaceAllNE_append_noDollar (nr r a b : Str) (ha : '$' ∉ a) :
    replaceAllNE '$' nr r (a ++ b) = a ++ replaceAllNE '$' nr r b := by
  induction a with
  | nil => simp
  | cons c t ih =>
    have hc : ('$' : Char) ≠ c := by
      intro h; exact ha (h ▸ List.mem_cons_self c t)
    rw [List.cons_append, replaceAllNE_cons,
      isPrefixOf_cons_ne '$' nr c (t ++ b) hc]
    simp only [Bool.false_eq_true, if_false, List.cons_append, List.cons.injEq,
      true_and]
    exact ih (fun h => ha (List.mem_cons_of_mem c h))

theorem replaceAllNE_noDollar (nr r s : Str) (hs : '$' ∉ s) :
    replaceAllNE '$' nr r s = s := by
  have := replaceAllNE_append_noDollar nr r s [] hs
  simpa [replaceAllNE_nil] using this

theorem replaceAllNE_token_head (nr r b : Str) :
    replaceAllNE '$' nr r ('$' :: nr ++ b) = r ++ replaceAllNE '$' nr r b := by
  rw [List.cons_append, replaceAllNE_cons]
  have h : ('$' :: nr).isPrefixOf ('$' :: (nr ++ b)) = true :=
    isPrefixOf_self_append ('$' :: nr) b
  rw [h]
  simp [List.drop_left]

theorem scanTokens_append_noDollar (a b : Str) (ha : '$' ∉ a) :
    scanTokens (a ++ b) = scanTokens b := by
  induction a with
  | nil => simp
  | cons c t ih =>
    have hc : c ≠ '$' := by
      intro h; exact ha (h ▸ List.mem_cons_self c t)
    rw [List.cons_append, scanTokens_cons]
    simp only [hc, if_false]
    exact ih (fun h => ha (List.mem_cons_of_mem c h))

theorem scanTokens_noDollar (s : Str) (hs : '$' ∉ s) : scanTokens s = [] := by
  have := scanTokens_append_noDollar s [] hs
  simpa [scanTokens_nil] using this

theorem takeWhile_run_append (run suf : Str) (hall : run.all isTokChar = true)
    (hsuf : headNotTok suf = true) :
    (run ++ suf).takeWhile isTokChar = run := by
  induction run with
  | nil =>
    cases suf with
    | nil => simp
    | cons c t =>
      simp only [headNotTok, Bool.not_eq_true'] at hsuf
      simp [List.takeWhile, hsuf]
  | cons c t ih =>
    simp only [List.all_cons, Bool.and_eq_true] at hall
    simp [List.takeWhile, hall.1, ih hall.2]

theorem specSimulSubst_append_noDollar (f : Str → Str) (a b : Str)
    (ha : '$' ∉ a) :
    specSimulSubst f (a ++ b) = a ++ specSimulSubst f b := by
  induction a with
  | nil => simp
  | cons c t ih =>
    have hc : c ≠ '$' := by
      intro h; exact ha (h ▸ List.mem_cons_self c t)
    rw [List.cons_append, specSimulSubst_cons]
    simp only [hc, if_false, List.cons_append, List.cons.injEq, true_and]
    exact ih (fun h => ha (List.mem_cons_of_mem c h))

theorem specSimulSubst_noDollar (f : Str → Str) (s : Str) (hs : '$' ∉ s) :
    specSimulSubst f s = s := by
  have := specSimulSubst_append_noDollar f s [] hs
  simpa [specSimulSubst_nil] using this

/-- On a value containing a single `$`-token occurrence, the scanner finds
exactly that token. -/
theorem scanTokens_single (pre run suf : Str) (hpre : '$' ∉ pre)
    (hrun : run ≠ []) (hall : run.all isTokChar = true)
    (hsuf : '$' ∉ suf) (hhead : headNotTok suf = true) :
    scanTokens (pre ++ ('$' :: run) ++ suf) = ['$' :: run] := by
  rw [List.append_assoc, scanTokens_append_noDollar _ _ hpre,
    List.cons_append, scanTokens_cons]
  rw [takeWhile_run_append run suf hall hhead]
  rw [if_pos rfl, if_neg (by simp [hrun]), List.drop_left,
    scanTokens_noDollar suf hsuf]

/-- The substitution loop of the code on a single-token value: the token
is replaced by `f`'s choice, everything else is untouched. -/
theorem codeSubst_single (f : Str → Str) (pre run suf : Str) (hpre : '$' ∉ pre)
    (hrun : run ≠ []) (hall : run.all isTokChar = true)
    (hsuf : '$' ∉ suf) (hhead : headNotTok suf = true) :
    codeSubst f (pre ++ ('$' :: run) ++ suf) = pre ++ f ('$' :: run) ++ suf := by
  unfold codeSubst
  rw [scanTokens_single pre run suf hpre hrun hall hsuf hhead]
  simp only [List.foldl_cons, List.foldl_nil, replaceAll]
  rw [List.append_assoc, replaceAllNE_append_noDollar _ _ _ _ hpre]
  rw [show ('$' :: run) ++ suf = '$' :: run ++ suf from rfl]
  rw [replaceAllNE_token_head, replaceAllNE_noDollar _ _ _ hsuf]
  simp [List.append_assoc]

/-- The spec's simultaneous substitution agrees on a single-token value. -/
theorem specSimulSubst_single (f : Str → Str) (pre run suf : Str)
    (hpre : '$' ∉ pre) (hrun : run ≠ []) (hall : run.all isTokChar = true)
    (hsuf : '$' ∉ suf) (hhead : headNotTok suf = true) :
    specSimulSubst f (pre ++ ('$' :: run) ++ suf)
      = pre ++ f ('$' :: run) ++ suf := by
  rw [List.append_assoc, specSimulSubst_append_noDollar f _ _ hpre,
    List.cons_append, specSimulSubst_cons]
  rw [takeWhile_run_append run suf hall hhead]
  rw [if_pos rfl, if_neg (by simp [hrun]), List.drop_left,
    specSimulSubst_noDollar f suf hsuf, List.append_assoc]

/-! ### Configuration store (`core/attribdict.AttribDict`, used as a dict) -/

/-- A configuration value: scalar string, integer (from all-digit
coercion), boolean (from the `USE_` prefix), or array option. -/
inductive Val where
  | vBool (b : Bool)
  | vInt (n : Nat)
  | vStr (s : Str)
  | vArr (xs : List Str)
deriving DecidableEq, Repr

/-- The configuration store: an insertion-ordered dictionary from
upper-cased option names to values (`config` in `settings.py`). -/
abbrev Store := List (Str × Val)

/-- Python dict assignment `d[k] = v`: replace in place, or append. -/
def insertStore (k : Str) (v : Val) : Store → Store
  | [] => [(k, v)]
  | (k2, v2) :: r => if k = k2 then (k, v) :: r else (k2, v2) :: insertStore k v r

/-- Python dict lookup `d[k]`. -/
def lookupStore (k : Str) : Store → Option Val
  | [] => none
  | (k2, v2) :: r => if k = k2 then some v2 else lookupStore k r

/-- Python `k in d`. -/
def memStore (k : Str) (s : Store) : Bool := (lookupStore k s).isSome

/-- `config[array].append(x)` of the continuation-line branch: update the
array stored under `k` in place.  In every state `read_config` can reach,
the current-array key holds a `vArr`; on other (unreachable) stores this
is a no-op. -/
def appendArr (k : Str) (x : Str) (s : Store) : Store :=
  match lookupStore k s with
  | some (.vArr xs) => insertStore k (.vArr (xs ++ [x])) s
  | _ => s

/-- Python truthiness of a configuration value. -/
def truthyVal : Val → Bool
  | .vBool b => b
  | .vInt n => n != 0
  | .vStr s => !s.isEmpty
  | .vArr l => !l.isEmpty

/-- Python truthiness of the `array` variable of the parse loop
(`None` or a string). -/
def truthyOptStr : Option Str → Bool
  | none => false
  | some a => !a.isEmpty

/-! ### `read_config` (`core/settings.py`) -/

/-- `re.sub(r"#.+", "", line)`: delete everything from the first `#` that
is followed by at least one character (a lone trailing `#` survives,
since `.+` needs a character after it). -/
def stripComment : Str → Str
  | [] => []
  | c :: rest =>
    if c = '#' && !rest.isEmpty then []
    else c :: stripComment rest

/-- Python `line.count(sep)` for one character. -/
def countChar (c : Char) (l : Str) : Nat := l.count c

/-- Python `line.startswith(' ')`. -/
def startsWithSpace : Str → Bool
  | ' ' :: _ => true
  | _ => false

/-- Python `s.split(' ', 1)` on a string with at least one space:
the parts before and after the first space; `none` when there is no
space (then the two-target unpacking raises `ValueError`). -/
def splitFirstSpace : Str → Option (Str × Str)
  | [] => none
  | c :: r =>
    if c = ' ' then some ([], r)
    else (splitFirstSpace r).map (fun p => (c :: p.1, p.2))

/-- The quote characters stripped from a scalar value
(`value.strip("'\"")`). -/
def quoteChars : List Char := ['\'', '"']

/-- An uncaught Python exception escaping `read_config` (the `try` only
catches `IOError`/`OSError`). -/
inductive PyErr where
  | valueError
  | attributeError
deriving DecidableEq, Repr

/-- Scalar value coercion of `read_config` (`settings.py` lines 139-152):
`USE_` prefix → boolean; all digits → integer; otherwise `$UPPER_NAME`
substitution against module globals `g` then environment `e`.
(`subprocess.mswindows` is `False` here, so the path-separator rewrite
is skipped.) -/
def coerceValue (g e : Str → Option Str) (name value : Str) : Val :=
  if "USE_".toList.isPrefixOf name then
    .vBool (lowerStr value = "1".toList || lowerStr value = "true".toList)
  else if isDigitStr value then
    .vInt (toNatDigits value)
  else
    .vStr (codeSubst (lookupTok g e) value)

/-- One iteration of the `for line in content.split("\n")` loop of
`read_config`; the state is `(config, array)`. -/
def processLine (g e : Str → Option Str) (st : Store × Option Str) (raw : Str) :
    Except PyErr (Store × Option Str) :=
  let line := stripComment raw
  if (pyStrip line).isEmpty then .ok st
  else if countChar ' ' line = 0 then
    let a := upperStr line
    .ok (insertStore a (.vArr []) st.1, some a)
  else if truthyOptStr st.2 && startsWithSpace line then
    match st.2 with
    | some a => .ok (appendArr a (pyStrip line) st.1, some a)
    | none => .ok st
  else
    match splitFirstSpace (pyStrip line) with
    | some (n, v) =>
      let name := upperStr n
      let value := pyStripChars quoteChars v
      .ok (insertStore name (coerceValue g e name value) st.1, none)
    | none => .error .valueError

/-- The whole parse loop of `read_config`. -/
def parseLoop (g e : Str → Option Str) :
    Store × Option Str → List Str → Except PyErr (Store × Option Str)
  | st, [] => .ok st
  | st, l :: ls =>
    match processLine g e st l with
    | .ok st2 => parseLoop g e st2 ls
    | .error err => .error err

/-- `SNAP_LEN` of `settings.py`. -/
def SNAP_LEN : Nat := 2000

/-- `BLOCK_LENGTH = 1 + 2 + 4 + 4 + SNAP_LEN`. -/
def BLOCK_LENGTH : Nat := 1 + 2 + 4 + 4 + SNAP_LEN

/-- The initial module-level `BUFFER_LENGTH`
(`512 * 1024 * 1024 / BLOCK_LENGTH * BLOCK_LENGTH`, Python 2 `/` being
floor division on ints). -/
def initialBufferLength : Nat := 512 * 1024 * 1024 / BLOCK_LENGTH * BLOCK_LENGTH

/-- The final rounding step `BUFFER_LENGTH / BLOCK_LENGTH * BLOCK_LENGTH`. -/
def floorBlock (n : Nat) : Nat := n / BLOCK_LENGTH * BLOCK_LENGTH

/-- The `group(1)` of `re.search(r"(\d+)%", s)`: scanning left to right,
the first maximal digit run immediately followed by `%` (backtracking
inside a maximal digit run cannot help, since the character after a
shortened run is a digit, not `%`).  `re.search(r"\d+%", s)` succeeds
exactly when this is `some`. -/
def findPctRun : Str → Option Str
  | [] => none
  | c :: r =>
    if c.isDigit then
      match r.dropWhile Char.isDigit with
      | '%' :: _ => some (c :: r.takeWhile Char.isDigit)
      | _ => findPctRun r
    else findPctRun r

/-- A fatal `exit(...)` message of `read_config` (each constructor is one
of its formatted message strings). -/
inductive ExitMsg where
  | missingFile
  | missingOption (name : Str)
  | cannotDeterminePhysmem
deriving DecidableEq, Repr

/-- Outcome of the capture-buffer sizing block (`settings.py` 161-172). -/
inductive SizeResult where
  | ok (n : Nat)
  | exitFatal (m : ExitMsg)
  | raised (err : PyErr)
deriving DecidableEq, Repr

/-- The `if config.CAPTURE_BUFFER:` sizing block.  `cb` is the stored
`CAPTURE_BUFFER` value, `physmem` the result of `_get_total_physmem()`
(queried only on the percentage branch), `buf` the current global
`BUFFER_LENGTH`.  Calling `.isdigit()` on a non-string value raises
`AttributeError`. -/
def sizeBuffer (cb : Val) (physmem : Option Nat) (buf : Nat) : SizeResult :=
  if !truthyVal cb then .ok buf
  else
    match cb with
    | .vStr s =>
      if isDigitStr s then .ok (floorBlock (toNatDigits s))
      else
        match findPctRun s with
        | some run =>
          match physmem with
          | some p =>
            if p != 0 then .ok (floorBlock (p * toNatDigits run / 100))
            else .exitFatal .cannotDeterminePhysmem
          | none => .exitFatal .cannotDeterminePhysmem
        | none => .ok (floorBlock buf)
    | _ => .raised .attributeError

/-- The three mandatory options checked by `read_config`, in order. -/
def mandatoryOptions : List Str :=
  ["MONITOR_INTERFACE".toList, "CAPTURE_BUFFER".toList, "LOG_DIRECTORY".toList]

/-- The first mandatory option absent from the store (the loop exits at
the first missing one). -/
def firstMissing (s : Store) : Option Str :=
  mandatoryOptions.find? (fun o => !memStore o s)

/-- The process-wide state read and written by `read_config`: the global
`config` (`None` before the first load) and the global `BUFFER_LENGTH`. -/
structure RCState where
  config : Option Store
  bufferLength : Nat
deriving DecidableEq, Repr

/-- Python truthiness of the global `config` (`None` or an `AttribDict`;
an empty dict is falsy). -/
def truthyConfig : Option Store → Bool
  | none => false
  | some s => !s.isEmpty

/-- How a call of `read_config` ends: normal return with the new global
state, process termination through `exit(...)`, or an uncaught Python
exception. -/
inductive RCResult where
  | ok (st : RCState)
  | exitFatal (m : ExitMsg)
  | raised (err : PyErr)
deriving DecidableEq, Repr

/-- `read_config()` (`settings.py` lines 107-172).  `fileExists` models
`os.path.isfile(CONFIG_FILE)`, `content` the bytes of the configuration
file, `physmem` the physical-memory probe, `g`/`e` the string-valued
module globals and the environment, `st` the global state on entry. -/
def read_config (fileExists : Bool) (content : Str) (physmem : Option Nat)
    (g e : Str → Option Str) (st : RCState) : RCResult :=
  if !fileExists then .exitFatal .missingFile
  else if truthyConfig st.config then .ok st
  else
    match parseLoop g e ([], none) (splitOnChar '\n' content) with
    | .error err => .raised err
    | .ok (store, _) =>
      match firstMissing store with
      | some o => .exitFatal (.missingOption o)
      | none =>
        match sizeBuffer ((lookupStore "CAPTURE_BUFFER".toList store).getD (.vStr []))
            physmem st.bufferLength with
        | .ok n => .ok ⟨some store, n⟩
        | .exitFatal m => .exitFatal m
        | .raised err => .raised err

/-! ### Custom trail adapter (`trails/custom/__init__.py`) -/

/-- A trail mapping: indicator key to `(__info__, __reference__)`. -/
abbrev TrailMap := List (Str × (Str × Str))

/-- Dict assignment for trail mappings. -/
def insertTrail (k : Str) (v : Str × Str) : TrailMap → TrailMap
  | [] => [(k, v)]
  | (k2, v2) :: r => if k = k2 then (k, v) :: r else (k2, v2) :: insertTrail k v r

/-- The keys of a trail mapping. -/
def keysOf (m : TrailMap) : List Str := m.map Prod.fst

/-- Scheme stripping: `line = re.search(r"://(.*)", line).group(1)` when
`"://" in line`, else the line unchanged. -/
def afterSchemeStrip (l : Str) : Str :=
  if containsSub "://".toList l then afterFirst "://".toList l else l

/-- The normalized core of a stripped line: scheme stripping followed by
`line.rstrip('/')`. -/
def normalizedCore (line : Str) : Str := rstripChar '/' (afterSchemeStrip line)

/-- `re.search(r"\A\d+\.\d+\.\d+\.\d+\Z", s)`: exactly four
dot-separated non-empty digit runs. -/
def isIPv4 (s : Str) : Bool :=
  match splitOnChar '.' s with
  | [a, b, c, d] => isDigitStr a && isDigitStr b && isDigitStr c && isDigitStr d
  | _ => false

/-- Python `line.startswith('#')`. -/
def startsWithHash : Str → Bool
  | '#' :: _ => true
  | _ => false

/-- The key registered for one raw line of a custom `*.txt` file
(`trails/custom/__init__.py` lines 21-34), or `none` for a skipped
blank/comment line.  On the path branch only the full host+path string is
returned; the `line.split('/')[0]` reassignment that follows feeds the
next loop iteration and registers nothing. -/
def processCustomLine (raw : Str) : Option Str :=
  let line := pyStrip raw
  if line.isEmpty then none
  else if startsWithHash line then none
  else
    let l := normalizedCore line
    if containsSub "/".toList l then some l
    else if isIPv4 l then some l
    else some (pyStripChars ['.'] l)

/-- `fetch()` of the custom adapter restricted to one list file, given the
file content and the `(__info__, __reference__)` metadata derived from the
file name. -/
def fetchCustom (info ref : Str) (content : Str) : TrailMap :=
  (splitOnChar '\n' content).foldl
    (fun acc raw =>
      match processCustomLine raw with
      | some k => insertTrail k (info, ref) acc
      | none => acc)
    []

/-! ### badips feed adapter (`trails/feeds/badips.py`) -/

/-- `__check__` of `badips.py`. -/
def badipsCheck : Str := ".121.".toList

/-- `__info__` and `__reference__` of `badips.py`. -/
def badipsMeta : Str × Str := ("attacker".toList, "badips.com".toList)

/-- Whether one stripped response line is kept by the badips loop
(non-blank, not a `#` comment, contains a dot). -/
def badipsKeeps (l : Str) : Bool :=
  !l.isEmpty && !startsWithHash l && containsSub ".".toList l

/-- The key a kept badips line registers: `line.split('\t')[0]`, the part
before the first tab (the whole line when there is no tab). -/
def beforeTab (l : Str) : Str := l.takeWhile (fun c => c != '\t')

/-- `fetch()` of the badips adapter as a function of the HTTP response
body (`retrieve_content(__url__)`): if the `__check__` sentinel is absent
the loop is skipped and the empty mapping is returned; no exception is
raised on any input. -/
def fetchBadips (content : Str) : TrailMap :=
  if containsSub badipsCheck content then
    (splitOnChar '\n' content).foldl
      (fun acc raw =>
        let line := pyStrip raw
        if badipsKeeps line then insertTrail (beforeTab line) badipsMeta acc
        else acc)
      []
  else []

/-- Modelled from the spec: scalar value coercion as the claim reads it,
with step (c) the simultaneous substitution `specSimulSubst` ("every
`$UPPER_NAME` token is replaced ...").  Steps (a) and (b) follow the
spec's words exactly as the code does. -/
def specCoerceValue (g e : Str → Option Str) (name value : Str) : Val :=
  if "USE_".toList.isPrefixOf name then
    .vBool (lowerStr value = "1".toList || lowerStr value = "true".toList)
  else if isDigitStr value then
    .vInt (toNatDigits value)
  else
    .vStr (specSimulSubst (lookupTok g e) value)

/-! ### Shared concrete instances -/

/-- The empty partial map (no string-valued globals / empty environment). -/
def noMap : Str → Option Str := fun _ => none

/-- A configuration file whose `CAPTURE_BUFFER` is in percentage form. -/
def demoPctContent : Str :=
  "MONITOR_INTERFACE eth0\nCAPTURE_BUFFER 10%\nLOG_DIRECTORY /var/log".toList

/-- The store `demoPctContent` parses to. -/
def demoPctStore : Store :=
  [("MONITOR_INTERFACE".toList, .vStr "eth0".toList),
   ("CAPTURE_BUFFER".toList, .vStr "10%".toList),
   ("LOG_DIRECTORY".toList, .vStr "/var/log".toList)]

/-! ### Claim theorems -/

/-- **C1.**  The claim asserts that the absolute digit-string form of
`CAPTURE_BUFFER` yields a block-multiple buffer length not exceeding the
requested count.  The code cannot deliver this: the parse loop has
already coerced every all-digit scalar to `int`, so the sizing block's
`config.CAPTURE_BUFFER.isdigit()` is called on an `int` and raises
`AttributeError` — `read_config` dies on exactly the input the claim
(and the code's own error message, which advises an absolute value)
describes.  Evaluation at the failing input: a well-formed configuration
giving `CAPTURE_BUFFER` directly as `134217728` bytes makes `read_config`
raise `AttributeError` instead of setting any buffer length. -/
theorem C1_absolute_digit_form_raises_attribute_error :
    read_config true
      "MONITOR_INTERFACE eth0\nCAPTURE_BUFFER 134217728\nLOG_DIRECTORY /var/log".toList
      (some 8589934592) noMap noMap ⟨none, initialBufferLength⟩
      = .raised .attributeError := by decide

/-- **C6.**  The three reference cases of the custom adapter's trail
normalization: a URL line registers the scheme-stripped host+path key, a
dotted-quad line registers exactly itself (never split), and a trailing
dot is stripped from a bare domain. -/
theorem C6_normalizer_reference_cases :
    "example.com/gate.php".toList ∈
        keysOf (fetchCustom "custom".toList "(custom)".toList
          "http://example.com/gate.php".toList)
    ∧ keysOf (fetchCustom "custom".toList "(custom)".toList "1.2.3.4".toList)
        = ["1.2.3.4".toList]
    ∧ keysOf (fetchCustom "custom".toList "(custom)".toList "evil.tld.".toList)
        = ["evil.tld".toList] := by decide

/-- **C7.**  When the `__check__` sentinel `".121."` is absent from the
response body, the badips `fetch` returns the empty mapping; the model is
a total function, mirroring that no exception escapes on this path. -/
theorem C7_missing_sentinel_yields_empty (content : Str)
    (h : containsSub badipsCheck content = false) :
    fetchBadips content = [] := by
  unfold fetchBadips
  simp [h]

/-- Witness for C7 at the concrete response body `"1.2.3.4"`. -/
theorem C7_missing_sentinel_yields_empty_witness :
    containsSub badipsCheck "1.2.3.4".toList = false
    ∧ fetchBadips "1.2.3.4".toList = [] :=
  ⟨by decide, C7_missing_sentinel_yields_empty "1.2.3.4".toList (by decide)⟩

/-- A concrete globals map with the single string-valued entry `A = "x"`. -/
def demoGlobals : Str → Option Str :=
  fun s => if s = "A".toList then some "x".toList else none

/-- **C3 (counterexample).**  The claim says a second `read_config` call
is a no-op even when the configuration file has been removed.  It is not:
the `os.path.isfile` check runs *before* the memoization check, so a
second call with the file gone exits the process instead of returning
with the state unchanged. -/
theorem C3_counterexample_removed_file_second_call_exits :
    read_config false [] none noMap noMap ⟨some demoPctStore, initialBufferLength⟩
      = .exitFatal .missingFile
    ∧ RCResult.exitFatal .missingFile
      ≠ .ok ⟨some demoPctStore, initialBufferLength⟩ := by decide

/-- **C3 (amended).**  Provided the configuration file still exists, a
second `read_config` call after a successful first load (global `config`
a non-empty store) returns with the global state unchanged, whatever the
file now contains: the memoization guard `elif not config` skips the
whole body. -/
theorem C3_second_call_noop (content : Str) (physmem : Option Nat)
    (g e : Str → Option Str) (st : RCState) (c : Store)
    (h1 : st.config = some c) (h2 : c ≠ []) :
    read_config true content physmem g e st = .ok st := by
  have hc : truthyConfig st.config = true := by
    rw [h1]; cases c with
    | nil => exact absurd rfl h2
    | cons a l => simp [truthyConfig]
  simp [read_config, hc]

/-- Witness for C3 (amended): after a first load of `demoPctContent`, a
second call that now sees an *empty* file is still a no-op. -/
theorem C3_second_call_noop_witness :
    read_config true [] none noMap noMap ⟨some demoPctStore, 7⟩
      = .ok ⟨some demoPctStore, 7⟩ :=
  C3_second_call_noop [] none noMap noMap ⟨some demoPctStore, 7⟩ demoPctStore
    rfl (by decide)

/-- **C4 (counterexample).**  The claim says every line beginning with
whitespace while an array is active appends to that array.  A
tab-indented line containing a space does not: `line.startswith(' ')`
tests only the space character, so `"\tfoo bar"` after the header `ARR`
is parsed as the scalar assignment `FOO = "bar"` (resetting the array
context) instead of appending `"foo bar"` to `ARR`. -/
theorem C4_counterexample_tab_continuation :
    parseLoop noMap noMap ([], none) ["ARR".toList, "\tfoo bar".toList]
      = .ok ([("ARR".toList, .vArr []), ("FOO".toList, .vStr "bar".toList)], none)
    ∧ lookupStore "ARR".toList
        [("ARR".toList, Val.vArr []), ("FOO".toList, Val.vStr "bar".toList)]
      ≠ some (.vArr ["foo bar".toList]) := by decide

/-- **C5 (counterexample).**  The claim reads substitution as replacing
every `$UPPER_NAME` token by its own lookup result.  The code instead
folds `str.replace` over the matches, so with the global `A = "x"` the
value `"$A $AB"` becomes `"x xB"` — the replacement of `$A` also rewrites
the prefix of the distinct token `$AB` — where the claim's simultaneous
reading produces `"x $AB"`. -/
theorem C5_counterexample_sequential_substitution :
    coerceValue demoGlobals noMap "FOO".toList "$A $AB".toList
      = .vStr "x xB".toList
    ∧ specCoerceValue demoGlobals noMap "FOO".toList "$A $AB".toList
      = .vStr "x $AB".toList
    ∧ coerceValue demoGlobals noMap "FOO".toList "$A $AB".toList
      ≠ specCoerceValue demoGlobals noMap "FOO".toList "$A $AB".toList := by decide

/-- **C8 (counterexample).**  The claim allows exactly two fatal
situations: missing file and missing mandatory option.  Here the file
exists and every mandatory option is present after parsing, yet
`read_config` still exits fatally: `CAPTURE_BUFFER` is in percentage form
and the physical-memory probe returns `None`. -/
theorem C8_counterexample_third_fatal_path :
    parseLoop noMap noMap ([], none) (splitOnChar '\n' demoPctContent)
      = .ok (demoPctStore, none)
    ∧ firstMissing demoPctStore = none
    ∧ read_config true demoPctContent none noMap noMap ⟨none, initialBufferLength⟩
        = .exitFatal .cannotDeterminePhysmem := by decide

/-- **C10 (counterexample).**  The claim concludes that every key of the
badips mapping contains a dot.  The key is the part of the line before
the first tab, which need not contain the dot that kept the line: the
one-line response `"ab\t1.121.2"` passes the sentinel check and yields
the dotless key `"ab"`. -/
theorem C10_counterexample_key_without_dot :
    keysOf (fetchBadips "ab\t1.121.2".toList) = ["ab".toList]
    ∧ containsSub ".".toList "ab".toList = false := by decide

/-- A concrete environment with the single entry `HOME = "/root"`. -/
def demoEnv : Str → Option Str :=
  fun s => if s = "HOME".toList then some "/root".toList else none

/-- **C5 (amended).**  Scalar coercion order as claimed: (a) a `USE_`-
prefixed name makes the value `True` exactly for `"1"`/`"true"`
case-insensitively; (b) otherwise an all-digit value becomes the integer;
(c) otherwise variable substitution — as claimed, *for a value containing
a single `$UPPER_NAME` token*: the token is replaced by the same-named
process-wide constant if one exists, else the environment variable, else
left unchanged, and the code's sequential replacement agrees with the
claim's simultaneous reading.  (With several tokens the replacements are
applied textually one after another, and an earlier token whose text is a
prefix of a later one corrupts it — see the counterexample.) -/
theorem C5_value_coercion (g e : Str → Option Str) (name value : Str) :
    ("USE_".toList.isPrefixOf name = true →
      coerceValue g e name value
        = .vBool (lowerStr value = "1".toList || lowerStr value = "true".toList))
    ∧ ("USE_".toList.isPrefixOf name = false → isDigitStr value = true →
      coerceValue g e name value = .vInt (toNatDigits value))
    ∧ (∀ pre run suf, "USE_".toList.isPrefixOf name = false →
      isDigitStr value = false →
      value = pre ++ ('$' :: run) ++ suf →
      '$' ∉ pre → '$' ∉ suf → run ≠ [] → run.all isTokChar = true →
      headNotTok suf = true →
      coerceValue g e name value
        = .vStr (pre ++ lookupTok g e ('$' :: run) ++ suf)
      ∧ coerceValue g e name value = specCoerceValue g e name value) := by
  refine ⟨fun h1 => ?_, fun h1 h2 => ?_,
    fun pre run suf h1 h2 hv hpre hsuf hrun hall hhead => ?_⟩
  · simp only [coerceValue]; rw [if_pos h1]
  · simp only [coerceValue]; rw [if_neg (by rw [h1]; exact Bool.false_ne_true), if_pos h2]
  · constructor
    · simp only [coerceValue]
      rw [if_neg (by rw [h1]; exact Bool.false_ne_true), if_neg (by rw [h2]; exact Bool.false_ne_true)]
      rw [hv, codeSubst_single (lookupTok g e) pre run suf hpre hrun hall hsuf hhead]
    · simp only [coerceValue, specCoerceValue]
      rw [if_neg (by rw [h1]; exact Bool.false_ne_true), if_neg (by rw [h2]; exact Bool.false_ne_true),
        if_neg (by rw [h1]; exact Bool.false_ne_true), if_neg (by rw [h2]; exact Bool.false_ne_true)]
      rw [hv, codeSubst_single (lookupTok g e) pre run suf hpre hrun hall hsuf hhead,
        specSimulSubst_single (lookupTok g e) pre run suf hpre hrun hall hsuf hhead]

/-- Witness for C5 (amended), clause (c): `$HOME` in `"$HOME/logs"` is
substituted from the environment. -/
theorem C5_value_coercion_witness :
    coerceValue noMap demoEnv "LOG_DIRECTORY".toList "$HOME/logs".toList
      = .vStr "/root/logs".toList
    ∧ coerceValue noMap demoEnv "LOG_DIRECTORY".toList "$HOME/logs".toList
      = specCoerceValue noMap demoEnv "LOG_DIRECTORY".toList "$HOME/logs".toList := by
  have h := (C5_value_coercion noMap demoEnv "LOG_DIRECTORY".toList
      "$HOME/logs".toList).2.2 [] "HOME".toList "/logs".toList
    (by decide) (by decide) (by decide) (by decide) (by decide) (by decide)
    (by decide) (by decide)
  refine ⟨?_, h.2⟩
  rw [h.1]; decide

/-- **C4 (amended).**  The configuration grammar, after comment stripping
and skipping blank lines: a line containing no *space character* starts a
new empty array option under the upper-cased line; a line beginning with
a *space character* (not arbitrary whitespace: `line.startswith(' ')`)
while an array is active appends its stripped content to that array; any
other line is a scalar assignment — split on the first space of its
stripped form, which must therefore contain an internal space (otherwise
the two-target unpacking raises `ValueError`) — and resets the
current-array context. -/
theorem C4_config_grammar (g e : Str → Option Str) (store : Store)
    (arr : Option Str) (raw : Str) :
    (pyStrip (stripComment raw)).isEmpty = false →
    ((countChar ' ' (stripComment raw) = 0 →
      processLine g e (store, arr) raw
        = .ok (insertStore (upperStr (stripComment raw)) (.vArr []) store,
            some (upperStr (stripComment raw))))
    ∧ (∀ a xs, countChar ' ' (stripComment raw) ≠ 0 → arr = some a → a ≠ [] →
        startsWithSpace (stripComment raw) = true →
        lookupStore a store = some (.vArr xs) →
        processLine g e (store, arr) raw
          = .ok (insertStore a (.vArr (xs ++ [pyStrip (stripComment raw)])) store,
              some a))
    ∧ (∀ n v, countChar ' ' (stripComment raw) ≠ 0 →
        (truthyOptStr arr = false ∨ startsWithSpace (stripComment raw) = false) →
        splitFirstSpace (pyStrip (stripComment raw)) = some (n, v) →
        processLine g e (store, arr) raw
          = .ok (insertStore (upperStr n)
              (coerceValue g e (upperStr n) (pyStripChars quoteChars v)) store,
              none))) := by
  intro hne
  refine ⟨fun hcount => ?_, fun a xs hcount harr ha hsw hlk => ?_,
    fun n v hcount hsc hsp => ?_⟩
  · simp [processLine, hne, hcount]
  · subst harr
    have hta : truthyOptStr (some a) = true := by
      cases a with
      | nil => exact absurd rfl ha
      | cons x l => simp [truthyOptStr]
    simp [processLine, hne, hcount, hta, hsw, appendArr, hlk]
  · rcases hsc with hsc | hsc
    · simp [processLine, hne, hcount, hsc, hsp]
    · simp [processLine, hne, hcount, hsc, hsp]

/-- Witness for C4 (amended): an array header, a space-indented
continuation, and a scalar assignment, each at a concrete line. -/
theorem C4_config_grammar_witness :
    processLine noMap noMap ([], none) "HOSTS".toList
      = .ok ([("HOSTS".toList, .vArr [])], some "HOSTS".toList)
    ∧ processLine noMap noMap ([("HOSTS".toList, .vArr [])],
        some "HOSTS".toList) " 1.2.3.4 5".toList
      = .ok ([("HOSTS".toList, .vArr ["1.2.3.4 5".toList])],
          some "HOSTS".toList)
    ∧ processLine noMap noMap ([], none) "HTTP_PORT 8338".toList
      = .ok ([("HTTP_PORT".toList, .vInt 8338)], none) := by
  refine ⟨?_, ?_, ?_⟩
  · have h := (C4_config_grammar noMap noMap [] none "HOSTS".toList
      (by decide)).1 (by decide)
    rw [h]; decide
  · have h := (C4_config_grammar noMap noMap [("HOSTS".toList, .vArr [])]
      (some "HOSTS".toList) " 1.2.3.4 5".toList (by decide)).2.1
      "HOSTS".toList [] (by decide) rfl (by decide) (by decide) (by decide)
    rw [h]; decide
  · have h := (C4_config_grammar noMap noMap [] none "HTTP_PORT 8338".toList
      (by decide)).2.2 "HTTP_PORT".toList "8338".toList (by decide)
      (Or.inl (by decide)) (by decide)
    rw [h]; decide

/-! ### Buffer-sizing lemmas -/

theorem findPctRun_of_all_digits (s : Str) (h : ∀ c ∈ s, c.isDigit = true) :
    findPctRun s = none := by
  induction s with
  | nil => rfl
  | cons c r ih =>
    have hc : c.isDigit = true := h c (List.mem_cons_self c r)
    have hr : ∀ x ∈ r, x.isDigit = true := fun x hx => h x (List.mem_cons_of_mem c hx)
    have hdw : r.dropWhile Char.isDigit = [] := by
      rw [List.dropWhile_eq_nil_iff]
      intro x hx
      exact hr x hx
    simp [findPctRun, hc, hdw, ih hr]

theorem findPctRun_not_digits (s run : Str) (h : findPctRun s = some run) :
    isDigitStr s = false := by
  by_contra hd
  have hd2 : isDigitStr s = true := by
    cases hb : isDigitStr s with
    | false => exact absurd hb hd
    | true => rfl
  have hall : ∀ c ∈ s, c.isDigit = true := by
    intro c hc
    have := (Bool.and_eq_true _ _).mp hd2
    exact List.all_eq_true.mp this.2 c hc
  rw [findPctRun_of_all_digits s hall] at h
  exact Option.noConfusion h

theorem sizeBuffer_pct_falsy (s run : Str) (pm : Option Nat) (buf : Nat)
    (h : findPctRun s = some run) (hpm : pm = none ∨ pm = some 0) :
    sizeBuffer (.vStr s) pm buf = .exitFatal .cannotDeterminePhysmem := by
  have hs : s.isEmpty = false := by
    cases s with
    | nil => simp [findPctRun] at h
    | cons a t => rfl
  have hd : isDigitStr s = false := findPctRun_not_digits s run h
  simp only [sizeBuffer, truthyVal, hs, Bool.not_false, Bool.not_true,
    Bool.false_eq_true, if_false]
  rw [if_neg (by rw [hd]; exact Bool.false_ne_true), h]
  rcases hpm with hpm | hpm <;> subst hpm <;> rfl

/-- `read_config` on a first call (`config = None`) with the file present
and a parse-clean content, unfolded past the parse stage. -/
theorem read_config_fresh_ok (content : Str) (pm : Option Nat)
    (g e : Str → Option Str) (buf : Nat) (store : Store) (arrSt : Option Str)
    (hparse : parseLoop g e ([], none) (splitOnChar '\n' content)
      = .ok (store, arrSt)) :
    read_config true content pm g e ⟨none, buf⟩ =
      match firstMissing store with
      | some o => .exitFatal (.missingOption o)
      | none =>
        match sizeBuffer
            ((lookupStore "CAPTURE_BUFFER".toList store).getD (.vStr []))
            pm buf with
        | .ok n => .ok ⟨some store, n⟩
        | .exitFatal m => .exitFatal m
        | .raised err => .raised err := by
  simp [read_config, truthyConfig, hparse]

/-- **C2.**  On a first load of a parse-clean configuration whose
`CAPTURE_BUFFER` is a string in percentage form, an undeterminable
physical memory (`_get_total_physmem()` returning `None`) always sends
`read_config` down a fatal `exit(...)` path — it never returns normally
with a defaulted buffer length. -/
theorem C2_percentage_without_physmem_exits (content : Str)
    (g e : Str → Option Str) (buf : Nat) (store : Store) (arrSt : Option Str)
    (s run : Str)
    (hparse : parseLoop g e ([], none) (splitOnChar '\n' content)
      = .ok (store, arrSt))
    (hcb : lookupStore "CAPTURE_BUFFER".toList store = some (.vStr s))
    (hpct : findPctRun s = some run) :
    ∃ m, read_config true content none g e ⟨none, buf⟩ = .exitFatal m := by
  rw [read_config_fresh_ok content none g e buf store arrSt hparse]
  cases hfm : firstMissing store with
  | some o => exact ⟨.missingOption o, rfl⟩
  | none =>
    refine ⟨.cannotDeterminePhysmem, ?_⟩
    rw [hcb]
    simp only [Option.getD_some]
    rw [sizeBuffer_pct_falsy s run none buf hpct (Or.inl rfl)]

/-- Witness for C2 at the concrete configuration `demoPctContent`. -/
theorem C2_percentage_without_physmem_exits_witness :
    ∃ m, read_config true demoPctContent none noMap noMap ⟨none, 0⟩
      = .exitFatal m :=
  C2_percentage_without_physmem_exits demoPctContent noMap noMap 0
    demoPctStore none "10%".toList "10".toList (by decide) (by decide)
    (by decide)

theorem sizeBuffer_exit_iff (cb : Val) (pm : Option Nat) (buf : Nat) :
    (∃ m, sizeBuffer cb pm buf = .exitFatal m) ↔
      ∃ s run, cb = .vStr s ∧ findPctRun s = some run
        ∧ (pm = none ∨ pm = some 0) := by
  constructor
  · rintro ⟨m, hm⟩
    match cb with
    | .vBool b => cases b <;> simp [sizeBuffer, truthyVal] at hm
    | .vInt n =>
      rcases Nat.eq_zero_or_pos n with hn | hn
      · subst hn; simp [sizeBuffer, truthyVal] at hm
      · have : (n != 0) = true := by simp; omega
        simp [sizeBuffer, truthyVal, this] at hm
    | .vArr xs => cases xs <;> simp [sizeBuffer, truthyVal] at hm
    | .vStr s =>
      cases hs : s.isEmpty with
      | true =>
        rw [sizeBuffer, if_pos (by simp [truthyVal, hs])] at hm
        exact absurd hm (by simp)
      | false =>
        rw [sizeBuffer, if_neg (by simp [truthyVal, hs])] at hm
        cases hd : isDigitStr s with
        | true => rw [if_pos hd] at hm; exact absurd hm (by simp)
        | false =>
          rw [if_neg (by rw [hd]; exact Bool.false_ne_true)] at hm
          cases hpr : findPctRun s with
          | none => rw [hpr] at hm; exact absurd hm (by simp)
          | some run =>
            rw [hpr] at hm
            refine ⟨s, run, rfl, hpr, ?_⟩
            cases pm with
            | none => exact Or.inl rfl
            | some p =>
              rcases Nat.eq_zero_or_pos p with hp | hp
              · subst hp; exact Or.inr rfl
              · have hpb : (p != 0) = true := by simp; omega
                simp [hpb] at hm
  · rintro ⟨s, run, hcb, hpct, hpm⟩
    subst hcb
    exact ⟨.cannotDeterminePhysmem, sizeBuffer_pct_falsy s run pm buf hpct hpm⟩

theorem firstMissing_none_mem (store : Store) (h : firstMissing store = none)
    (o : Str) (ho : o ∈ mandatoryOptions) : memStore o store = true := by
  unfold firstMissing at h
  have := List.find?_eq_none.mp h o ho
  simpa using this

/-- **C8 (amended).**  On a first load, `read_config` takes a fatal
`exit(...)` path in exactly *three* situations: the configuration file
does not exist, a mandatory option (monitor interface, capture buffer,
log directory) is absent after parsing, or the capture buffer is in
percentage form while total physical memory cannot be determined
(the probe returns `None` or `0`). -/
theorem C8_fatal_iff (fe : Bool) (content : Str) (pm : Option Nat)
    (g e : Str → Option Str) (buf : Nat) :
    (∃ m, read_config fe content pm g e ⟨none, buf⟩ = .exitFatal m) ↔
      (fe = false
       ∨ ∃ store arrSt,
           parseLoop g e ([], none) (splitOnChar '\n' content)
             = .ok (store, arrSt)
           ∧ (firstMissing store ≠ none
              ∨ ∃ s run,
                  lookupStore "CAPTURE_BUFFER".toList store = some (.vStr s)
                  ∧ findPctRun s = some run
                  ∧ (pm = none ∨ pm = some 0))) := by
  cases fe with
  | false =>
    constructor
    · intro _; exact Or.inl rfl
    · intro _; exact ⟨.missingFile, rfl⟩
  | true =>
    cases hp : parseLoop g e ([], none) (splitOnChar '\n' content) with
    | error err =>
      have hrc : read_config true content pm g e ⟨none, buf⟩ = .raised err := by
        simp [read_config, truthyConfig, hp]
      constructor
      · rintro ⟨m, hm⟩
        rw [hrc] at hm
        exact absurd hm (by simp)
      · rintro (h | ⟨store, arrSt, hps, _⟩)
        · exact absurd h (by simp)
        · exact absurd hps (by simp)
    | ok p =>
      obtain ⟨store, arrSt⟩ := p
      rw [read_config_fresh_ok content pm g e buf store arrSt hp]
      cases hfm : firstMissing store with
      | some o =>
        constructor
        · intro _
          exact Or.inr ⟨store, arrSt, rfl, Or.inl (by simp [hfm])⟩
        · intro _
          exact ⟨.missingOption o, rfl⟩
      | none =>
        constructor
        · rintro ⟨m, hm⟩
          cases hsz : sizeBuffer
              ((lookupStore "CAPTURE_BUFFER".toList store).getD (.vStr []))
              pm buf with
          | ok n => rw [hsz] at hm; exact absurd hm (by simp)
          | raised err => rw [hsz] at hm; exact absurd hm (by simp)
          | exitFatal m2 =>
            obtain ⟨s, run, hcb, hpct, hpm⟩ :=
              (sizeBuffer_exit_iff _ pm buf).mp ⟨m2, hsz⟩
            have hmem := firstMissing_none_mem store hfm "CAPTURE_BUFFER".toList
              (by simp [mandatoryOptions])
            cases hlk : lookupStore "CAPTURE_BUFFER".toList store with
            | none =>
              rw [memStore, hlk] at hmem
              exact absurd hmem (by simp)
            | some v =>
              rw [hlk, Option.getD_some] at hcb
              exact Or.inr ⟨store, arrSt, rfl,
                Or.inr ⟨s, run, by rw [hlk, hcb], hpct, hpm⟩⟩
        · rintro (h | ⟨store2, arrSt2, hps, hrest⟩)
          · exact absurd h (by simp)
          · injection hps with hps2
            injection hps2 with h1 h2
            subst h1
            rcases hrest with hfm2 | ⟨s, run, hcb, hpct, hpm⟩
            · exact absurd hfm hfm2
            · refine ⟨.cannotDeterminePhysmem, ?_⟩
              rw [hcb, Option.getD_some,
                sizeBuffer_pct_falsy s run pm buf hpct hpm]

/-- Witness for C8 (amended): the backward direction exhibits the third
fatal situation at `demoPctContent` with no determinable memory. -/
theorem C8_fatal_iff_witness :
    ∃ m, read_config true demoPctContent none noMap noMap ⟨none, 5⟩
      = .exitFatal m :=
  (C8_fatal_iff true demoPctContent none noMap noMap 5).mpr
    (Or.inr ⟨demoPctStore, none, by decide,
      Or.inr ⟨"10%".toList, "10".toList, by decide, by decide, Or.inl rfl⟩⟩)

/-! ### Custom-adapter and badips lemmas -/

theorem containsSub_single_mem (c : Char) (l : Str)
    (h : containsSub [c] l = true) : c ∈ l := by
  induction l with
  | nil => simp [containsSub] at h
  | cons d t ih =>
    rw [containsSub] at h
    rcases (Bool.or_eq_true _ _).mp h with h2 | h2
    · simp [List.isPrefixOf] at h2
      exact h2 ▸ List.mem_cons_self d t
    · exact List.mem_cons_of_mem d (ih h2)

theorem splitOnChar_ne_nil (sep : Char) (l : Str) : splitOnChar sep l ≠ [] := by
  cases l with
  | nil => simp [splitOnChar]
  | cons c r =>
    by_cases hc : c = sep
    · simp [splitOnChar, hc]
    · cases hsp : splitOnChar sep r with
      | nil => simp [splitOnChar, hc, hsp]
      | cons s ss => simp [splitOnChar, hc, hsp]

/-- `line.split(sep)[0]` differs from `line` whenever `line` contains the
separator. -/
theorem split_head_ne_of_mem (sep : Char) (l : Str) (h : sep ∈ l) :
    (splitOnChar sep l).headD [] ≠ l := by
  induction l with
  | nil => cases h
  | cons d t ih =>
    by_cases hd : d = sep
    · subst hd; simp [splitOnChar]
    · have ht : sep ∈ t := by
        rcases List.mem_cons.mp h with h2 | h2
        · exact absurd h2.symm hd
        · exact h2
      cases hsp : splitOnChar sep t with
      | nil => exact absurd hsp (splitOnChar_ne_nil sep t)
      | cons s ss =>
        have hne : s ≠ t := by
          have := ih ht
          rw [hsp] at this
          simpa using this
        simp [splitOnChar, hd, hsp, hne]

/-- **C9.**  For every custom-list line whose normalized core (scheme
stripping, then `rstrip('/')`) still contains a path separator, the
adapter registers exactly the full host+path string; the host-only
portion `line.split('/')[0]` — computed by the source only to feed the
next loop iteration — is a different string and is not registered by this
line. -/
theorem C9_hostpath_only_registered (raw : Str)
    (h1 : (pyStrip raw).isEmpty = false)
    (h2 : startsWithHash (pyStrip raw) = false)
    (h3 : containsSub "/".toList (normalizedCore (pyStrip raw)) = true) :
    processCustomLine raw = some (normalizedCore (pyStrip raw))
    ∧ (splitOnChar '/' (normalizedCore (pyStrip raw))).headD []
        ≠ normalizedCore (pyStrip raw) := by
  constructor
  · simp only [processCustomLine]
    rw [if_neg (by rw [h1]; exact Bool.false_ne_true),
      if_neg (by rw [h2]; exact Bool.false_ne_true), if_pos h3]
  · exact split_head_ne_of_mem '/' _ (containsSub_single_mem '/' _ h3)

/-- Witness for C9 at the concrete line `"evil.com/a/"`. -/
theorem C9_hostpath_only_registered_witness :
    processCustomLine "evil.com/a/".toList = some "evil.com/a".toList
    ∧ "evil.com".toList ≠ "evil.com/a".toList := by
  have h := C9_hostpath_only_registered "evil.com/a/".toList
    (by decide) (by decide) (by decide)
  refine ⟨?_, by decide⟩
  rw [h.1]; decide

theorem keysOf_insertTrail (k : Str) (v : Str × Str) (m : TrailMap)
    (k2 : Str) :
    k2 ∈ keysOf (insertTrail k v m) ↔ k2 = k ∨ k2 ∈ keysOf m := by
  induction m with
  | nil => simp [insertTrail, keysOf]
  | cons p r ih =>
    obtain ⟨pk, pv⟩ := p
    by_cases hk : k = pk
    · subst hk
      simp [insertTrail, keysOf]
    · simp only [insertTrail, if_neg hk, keysOf, List.map_cons, List.mem_cons]
      rw [show (keysOf (insertTrail k v r) = (insertTrail k v r).map Prod.fst)
        from rfl] at ih
      rw [ih]
      tauto

/-- Key membership after the badips registration fold. -/
theorem mem_keys_badips_fold (lines : List Str) (acc : TrailMap) (k : Str) :
    k ∈ keysOf (lines.foldl
      (fun acc raw =>
        let line := pyStrip raw
        if badipsKeeps line then insertTrail (beforeTab line) badipsMeta acc
        else acc) acc)
    ↔ (k ∈ keysOf acc
       ∨ ∃ raw, raw ∈ lines ∧ badipsKeeps (pyStrip raw) = true
           ∧ k = beforeTab (pyStrip raw)) := by
  induction lines generalizing acc with
  | nil => simp
  | cons raw rest ih =>
    simp only [List.foldl_cons]
    rw [ih]
    by_cases hk : badipsKeeps (pyStrip raw) = true
    · simp only [hk, if_pos, keysOf_insertTrail, List.mem_cons]
      constructor
      · rintro (⟨h | h⟩ | ⟨r2, hr2, hk2, he2⟩)
        · exact Or.inr ⟨raw, Or.inl rfl, hk, h⟩
        · exact Or.inl h
        · exact Or.inr ⟨r2, Or.inr hr2, hk2, he2⟩
      · rintro (h | ⟨r2, hr2, hk2, he2⟩)
        · exact Or.inl (Or.inr h)
        · rcases hr2 with hr2 | hr2
          · subst hr2; exact Or.inl (Or.inl he2)
          · exact Or.inr ⟨r2, hr2, hk2, he2⟩
    · have hk2 : badipsKeeps (pyStrip raw) = false := by
        cases hb : badipsKeeps (pyStrip raw) with
        | false => rfl
        | true => exact absurd hb hk
      simp only [hk2, Bool.false_eq_true, if_false, List.mem_cons]
      constructor
      · rintro (h | ⟨r2, hr2, hkk, he2⟩)
        · exact Or.inl h
        · exact Or.inr ⟨r2, Or.inr hr2, hkk, he2⟩
      · rintro (h | ⟨r2, hr2, hkk, he2⟩)
        · exact Or.inl h
        · rcases hr2 with hr2 | hr2
          · subst hr2; exact absurd hkk hk
          · exact Or.inr ⟨r2, hr2, hkk, he2⟩

/-- **C10 (amended).**  Every line of a validated badips response that
contains no dot is silently skipped (with blank and `#` lines), so every
key of the returned mapping is the before-first-tab portion of a kept
line that contains at least one dot — though the key itself, cut at the
tab, need not contain that dot. -/
theorem C10_keys_from_dotted_lines (content : Str) (k : Str)
    (h : k ∈ keysOf (fetchBadips content)) :
    ∃ raw, raw ∈ splitOnChar '\n' content
      ∧ (pyStrip raw).isEmpty = false
      ∧ startsWithHash (pyStrip raw) = false
      ∧ containsSub ".".toList (pyStrip raw) = true
      ∧ k = beforeTab (pyStrip raw) := by
  unfold fetchBadips at h
  by_cases hc : containsSub badipsCheck content = true
  · rw [if_pos hc] at h
    rcases (mem_keys_badips_fold (splitOnChar '\n' content) [] k).mp h with
      h0 | ⟨raw, hmem, hkeep, hkey⟩
    · simp [keysOf] at h0
    · have hparts := hkeep
      simp only [badipsKeeps, Bool.and_eq_true, Bool.not_eq_true'] at hparts
      exact ⟨raw, hmem, hparts.1.1, hparts.1.2, hparts.2, hkey⟩
  · rw [if_neg hc] at h
    simp [keysOf] at h

/-- Witness for C10 (amended) at a concrete validated response. -/
theorem C10_keys_from_dotted_lines_witness :
    ∃ raw, raw ∈ splitOnChar '\n' ".121.\n1.2.3.4".toList
      ∧ (pyStrip raw).isEmpty = false
      ∧ startsWithHash (pyStrip raw) = false
      ∧ containsSub ".".toList (pyStrip raw) = true
      ∧ "1.2.3.4".toList = beforeTab (pyStrip raw) :=
  C10_keys_from_dotted_lines ".121.\n1.2.3.4".toList "1.2.3.4".toList
    (by decide)

/-! ### Supporting facts: block-aligned buffer sizing -/

theorem BLOCK_LENGTH_dvd_floorBlock (n : Nat) : BLOCK_LENGTH ∣ floorBlock n :=
  ⟨n / BLOCK_LENGTH, by rw [floorBlock, Nat.mul_comm]⟩

theorem floorBlock_le (n : Nat) : floorBlock n ≤ n :=
  Nat.div_mul_le_self n BLOCK_LENGTH

theorem BLOCK_LENGTH_dvd_initialBufferLength :
    BLOCK_LENGTH ∣ initialBufferLength :=
  BLOCK_LENGTH_dvd_floorBlock (512 * 1024 * 1024)

/-- Whenever the sizing block returns normally from a block-multiple
starting value, the resulting buffer length is again a multiple of
`BLOCK_LENGTH` (both the digit-string and the percentage paths floor to a
whole number of blocks; the no-op paths keep the starting value). -/
theorem sizeBuffer_ok_block_multiple (cb : Val) (pm : Option Nat)
    (buf n : Nat) (hbuf : BLOCK_LENGTH ∣ buf)
    (h : sizeBuffer cb pm buf = .ok n) : BLOCK_LENGTH ∣ n := by
  cases cb with
  | vBool b =>
    cases b with
    | false => simp [sizeBuffer, truthyVal] at h; exact h ▸ hbuf
    | true => simp [sizeBuffer, truthyVal] at h
  | vInt k =>
    rcases Nat.eq_zero_or_pos k with hk | hk
    · subst hk; simp [sizeBuffer, truthyVal] at h; exact h ▸ hbuf
    · have hkb : (k != 0) = true := by simp; omega
      simp [sizeBuffer, truthyVal, hkb] at h
  | vArr xs =>
    cases xs with
    | nil => simp [sizeBuffer, truthyVal] at h; exact h ▸ hbuf
    | cons a l => simp [sizeBuffer, truthyVal] at h
  | vStr s =>
    cases hs : s.isEmpty with
    | true =>
      rw [sizeBuffer, if_pos (by simp [truthyVal, hs])] at h
      injection h with h2
      exact h2 ▸ hbuf
    | false =>
      rw [sizeBuffer, if_neg (by simp [truthyVal, hs])] at h
      by_cases hd : isDigitStr s = true
      · rw [if_pos hd] at h
        injection h with h2
        exact h2 ▸ BLOCK_LENGTH_dvd_floorBlock _
      · rw [if_neg hd] at h
        cases hpr : findPctRun s with
        | none =>
          rw [hpr] at h
          injection h with h2
          exact h2 ▸ BLOCK_LENGTH_dvd_floorBlock _
        | some run =>
          rw [hpr] at h
          cases pm with
          | none => exact absurd h (by simp)
          | some p =>
            by_cases hp : (p != 0) = true
            · simp only [hp, if_true] at h
              injection h with h2
              exact h2 ▸ BLOCK_LENGTH_dvd_floorBlock _
            · simp [hp] at h

/-- A first `read_config` call that returns normally leaves the global
`BUFFER_LENGTH` a multiple of `BLOCK_LENGTH`, provided it started as one
(the module initializes it to the block-floored 512 MiB). -/
theorem read_config_ok_block_multiple (content : Str) (pm : Option Nat)
    (g e : Str → Option Str) (buf : Nat) (st2 : RCState)
    (hbuf : BLOCK_LENGTH ∣ buf)
    (h : read_config true content pm g e ⟨none, buf⟩ = .ok st2) :
    BLOCK_LENGTH ∣ st2.bufferLength := by
  cases hp : parseLoop g e ([], none) (splitOnChar '\n' content) with
  | error err =>
    rw [show read_config true content pm g e ⟨none, buf⟩ = .raised err from
      by simp [read_config, truthyConfig, hp]] at h
    exact absurd h (by simp)
  | ok p =>
    obtain ⟨store, arrSt⟩ := p
    rw [read_config_fresh_ok content pm g e buf store arrSt hp] at h
    cases hfm : firstMissing store with
    | some o =>
      rw [hfm] at h
      exact absurd h (by simp)
    | none =>
      rw [hfm] at h
      cases hsz : sizeBuffer
          ((lookupStore "CAPTURE_BUFFER".toList store).getD (.vStr []))
          pm buf with
      | ok n =>
        rw [hsz] at h
        injection h with h2
        subst h2
        exact sizeBuffer_ok_block_multiple _ pm buf n hbuf hsz
      | exitFatal m => rw [hsz] at h; exact absurd h (by simp)
      | raised err => rw [hsz] at h; exact absurd h (by simp)

end Maltrail
